import Mathlib

/-!
Shallow embedding of `time_guardian/visibility.py` (functions
`create_window_bitmap` and `add_visibility_pct`), together with theorems
settling the specification's claims about the window-visibility calculator.

Modelling conventions:
* Python ints are `Int`/`Nat`; the float percentages are modelled as `ℚ`
  (every division the code performs is between machine integers whose exact
  rational value is what the spec's statements are about).
* The numpy bitmap has dtype `uint16`, so a stored window id is the id
  reduced modulo 2^16 (numpy's value-changing unsafe cast on assignment).
* Numpy basic slicing `bitmap[y1:y2, x1:x2] = id` follows Python slice
  index adjustment: a negative bound has the axis length added to it, then
  bounds are clamped into `[0, n]`.  This is modelled by `sliceIdx`.
* `sorted(windows, key=lambda w: (w["layer"], w["stack_order"]))` is a
  stable ascending sort by the lexicographic key; `sortWindows` below is a
  stable insertion sort, which computes exactly that list.
* Failures (`min()`/`max()` on an empty sequence, `np.zeros` with a
  negative dimension) are modelled by `Except.error`, in the order the
  code would raise them.
-/

/-- A display's `bounds` rectangle `{x, y, width, height}`. -/
structure Rect where
  x : Int
  y : Int
  width : Int
  height : Int
deriving DecidableEq, Repr

/-- A window record: `window_id`, `position {x, y}`, `size {width, height}`,
`layer`, `stack_order`. -/
structure Window where
  window_id : Nat
  pos_x : Int
  pos_y : Int
  width : Int
  height : Int
  layer : Int
  stack_order : Int
deriving DecidableEq, Repr

/-- The two fields `add_visibility_pct` writes into each window dict:
`visible_pixels` and `visible_percent`. -/
structure VisEntry where
  window : Window
  visible_pixels : Nat
  visible_percent : ℚ
deriving DecidableEq, Repr

/-- `min_x = min(d["bounds"]["x"] for d in displays)` (visibility.py:55). -/
def minX : List Rect → Int
  | [] => 0
  | d :: ds => ds.foldl (fun a r => min a r.x) d.x

/-- `min_y = min(d["bounds"]["y"] for d in displays)` (visibility.py:56). -/
def minY : List Rect → Int
  | [] => 0
  | d :: ds => ds.foldl (fun a r => min a r.y) d.y

/-- `max_x = max(d["bounds"]["x"] + d["bounds"]["width"] for d in displays)`
(visibility.py:57). -/
def maxX : List Rect → Int
  | [] => 0
  | d :: ds => ds.foldl (fun a r => max a (r.x + r.width)) (d.x + d.width)

/-- `max_y = max(d["bounds"]["y"] + d["bounds"]["height"] for d in displays)`
(visibility.py:58). -/
def maxY : List Rect → Int
  | [] => 0
  | d :: ds => ds.foldl (fun a r => max a (r.y + r.height)) (d.y + d.height)

/-- `width = int(max_x - min_x)` (visibility.py:62). -/
def canvasW (ds : List Rect) : Int := maxX ds - minX ds

/-- `height = int(max_y - min_y)` (visibility.py:63). -/
def canvasH (ds : List Rect) : Int := maxY ds - minY ds

/-- Python slice-bound adjustment for an axis of length `n` and step `+1`:
a negative bound has `n` added to it, then the bound is clamped into
`[0, n]`.  This is the semantics of `bitmap[y1:y2, x1:x2]`
(visibility.py:86). -/
def sliceIdx (n : Nat) (v : Int) : Nat :=
  if v < 0 then
    if v + n < 0 then 0 else if (v + n).toNat ≤ n then (v + n).toNat else n
  else
    if v.toNat ≤ n then v.toNat else n

/-- `x1 = int(w["position"]["x"] - min_x)` adjusted for the column axis
(visibility.py:79). -/
def colLo (ds : List Rect) (w : Window) : Nat :=
  sliceIdx (canvasW ds).toNat (w.pos_x - minX ds)

/-- `x2 = x1 + int(w["size"]["width"])` adjusted for the column axis
(visibility.py:81). -/
def colHi (ds : List Rect) (w : Window) : Nat :=
  sliceIdx (canvasW ds).toNat (w.pos_x - minX ds + w.width)

/-- `y1 = int(w["position"]["y"] - min_y)` adjusted for the row axis
(visibility.py:80). -/
def rowLo (ds : List Rect) (w : Window) : Nat :=
  sliceIdx (canvasH ds).toNat (w.pos_y - minY ds)

/-- `y2 = y1 + int(w["size"]["height"])` adjusted for the row axis
(visibility.py:82). -/
def rowHi (ds : List Rect) (w : Window) : Nat :=
  sliceIdx (canvasH ds).toNat (w.pos_y - minY ds + w.height)

/-- Cell `(r, c)` lies in the region `bitmap[y1:y2, x1:x2]` that window `w`
writes (visibility.py:86). -/
def inSlice (ds : List Rect) (w : Window) (r c : Nat) : Prop :=
  rowLo ds w ≤ r ∧ r < rowHi ds w ∧ colLo ds w ≤ c ∧ c < colHi ds w

instance (ds : List Rect) (w : Window) (r c : Nat) : Decidable (inSlice ds w r c) := by
  unfold inSlice; infer_instance

/-- Strict lexicographic order on the sort key `(layer, stack_order)`. -/
def keyLt (a b : Window) : Prop :=
  a.layer < b.layer ∨ (a.layer = b.layer ∧ a.stack_order < b.stack_order)

/-- Non-strict lexicographic order on the sort key `(layer, stack_order)`. -/
def keyLe (a b : Window) : Prop :=
  a.layer < b.layer ∨ (a.layer = b.layer ∧ a.stack_order ≤ b.stack_order)

instance (a b : Window) : Decidable (keyLt a b) := by unfold keyLt; infer_instance

instance (a b : Window) : Decidable (keyLe a b) := by unfold keyLe; infer_instance

/-- Stable insertion: `a` is placed before the first element that is not
strictly below it, so elements with an equal key keep their input order. -/
def insertW (a : Window) : List Window → List Window
  | [] => [a]
  | b :: t => if keyLt b a then b :: insertW a t else a :: b :: t

/-- `windows = sorted(windows, key=lambda w: (w["layer"], w["stack_order"]))`
(visibility.py:72): the stable ascending sort by `(layer, stack_order)`,
computed as a stable insertion sort. -/
def sortWindows (ws : List Window) : List Window := ws.foldr insertW []

/-- The value of bitmap cell `(r, c)` after the paint loop
(visibility.py:78-86) has processed the (already sorted) list `sws`:
each window overwrites its slice with `w["window_id"]`, stored in a
`uint16` cell, i.e. reduced modulo 2^16. -/
def cellVal (ds : List Rect) (sws : List Window) (r c : Nat) : Nat :=
  sws.foldl (fun acc w => if inSlice ds w r c then w.window_id % 65536 else acc) 0

/-- The last window of `l` (in list order) whose written slice covers cell
`(r, c)`, if any: the "last painter" of the cell. -/
def lastPaint (ds : List Rect) : List Window → Nat → Nat → Option Window
  | [], _, _ => none
  | w :: t, r, c =>
    match lastPaint ds t r c with
    | some w' => some w'
    | none => if inSlice ds w r c then some w else none

/-- The finished bitmap of `create_window_bitmap(windows, displays)`
(visibility.py:40-95), as a cell-value function. -/
def bitmapVal (ws : List Window) (ds : List Rect) (r c : Nat) : Nat :=
  cellVal ds (sortWindows ws) r c

/-- All cell coordinates `(r, c)` of the canvas-sized bitmap
`np.zeros((height, width))` (visibility.py:67). -/
def gridCells (ds : List Rect) : Finset (Nat × Nat) :=
  (Finset.range (canvasH ds).toNat) ×ˢ (Finset.range (canvasW ds).toNat)

/-- `counts[id]` after `np.add.at(counts, bitmap.ravel(), 1)`
(visibility.py:155-157): the number of bitmap cells holding value `id`. -/
def idCount (ws : List Window) (ds : List Rect) (id : Nat) : Nat :=
  ((gridCells ds).filter (fun p => bitmapVal ws ds p.1 p.2 = id)).card

/-- `window_sizes[id]` (visibility.py:167-169): zero-initialised, then each
window in input order writes `int(w["size"]["width"] * w["size"]["height"])`
at its id, so the last window with a given id wins. -/
def windowSizes (ws : List Window) (id : Nat) : Int :=
  ws.foldl (fun a w => if w.window_id = id then w.width * w.height else a) 0

/-- The final `visible_pixels`/`visible_percent` of one window dict `w`
(visibility.py:170-188).  `rest` is the part of the input list after this
dict: `window_lookup` maps an id to the *last* dict carrying it
(visibility.py:166), so this dict is updated only when `rest` has no window
with the same id.  The update happens for ids with a nonzero count
(visibility.py:159, 184-188), and the percentage is
`counts / window_sizes * 100` under the mask `window_sizes > 0`
(visibility.py:179-181), else the float `0.0`. -/
def mkEntry (ws : List Window) (ds : List Rect) (w : Window) (rest : List Window) : VisEntry :=
  let cnt := idCount ws ds w.window_id
  let sz := windowSizes ws w.window_id
  if rest.all (fun w2 => w2.window_id ≠ w.window_id) then
    if cnt ≠ 0 then
      ⟨w, cnt, if 0 < sz then 100 * (cnt : ℚ) / (sz : ℚ) else 0⟩
    else ⟨w, 0, 0⟩
  else ⟨w, 0, 0⟩

/-- The per-dict results for the sublist `l` of the input window list. -/
def visEntries (ws : List Window) (ds : List Rect) : List Window → List VisEntry
  | [] => []
  | w :: rest => mkEntry ws ds w rest :: visEntries ws ds rest

/-- `add_visibility_pct(windows, displays)` (visibility.py:133-205), with
`save_path=None`.  Failure cases, in the order the code hits them:
`min()` over an empty display list (visibility.py:55), `np.zeros` with a
negative dimension (visibility.py:67), and `max()` over an empty window
list (visibility.py:154).  A zero-sized canvas is *not* an error: numpy
happily builds an empty array.  On success every input window dict ends up
with its `visible_pixels` and `visible_percent`. -/
def add_visibility_pct (ws : List Window) (ds : List Rect) : Except String (List VisEntry) :=
  if ds = [] then .error "ValueError: min() arg is an empty sequence"
  else if canvasW ds < 0 ∨ canvasH ds < 0 then
    .error "ValueError: negative dimensions are not allowed"
  else if ws = [] then .error "ValueError: max() arg is an empty sequence"
  else .ok (visEntries ws ds ws)

/-! ### The spec's concrete two-window example -/

/-- Displays of the spec's concrete example: one 1000×1000 display at the
origin. -/
def c1Displays : List Rect := [⟨0, 0, 1000, 1000⟩]

/-- Windows of the spec's concrete example: two 200×200 windows, the second
shifted by (100, 100) and higher in stack order. -/
def c1Windows : List Window :=
  [⟨1, 0, 0, 200, 200, 0, 1⟩, ⟨2, 100, 100, 200, 200, 0, 2⟩]

/-! ### Basic lemmas about the paint loop -/

/-- The paint fold computes the last painter's stored id (or keeps the
accumulator when nobody paints the cell). -/
theorem foldl_paint_eq_lastPaint (ds : List Rect) (l : List Window) (r c : Nat) (acc : Nat) :
    l.foldl (fun a w => if inSlice ds w r c then w.window_id % 65536 else a) acc =
      (lastPaint ds l r c).elim acc (fun w => w.window_id % 65536) := by
  induction l generalizing acc with
  | nil => rfl
  | cons w t ih =>
    simp only [List.foldl_cons, lastPaint, ih]
    cases h : lastPaint ds t r c with
    | some w' => simp
    | none =>
      by_cases hw : inSlice ds w r c <;> simp [hw]

/-- A cell's final value is its last painter's id reduced modulo 2^16, or
`0` (background) when no window covers it. -/
theorem cellVal_eq_lastPaint (ds : List Rect) (l : List Window) (r c : Nat) :
    cellVal ds l r c = (lastPaint ds l r c).elim 0 (fun w => w.window_id % 65536) :=
  foldl_paint_eq_lastPaint ds l r c 0

/-- The last painter is an element of the list and covers the cell. -/
theorem lastPaint_mem {ds : List Rect} {l : List Window} {r c : Nat} {w' : Window}
    (h : lastPaint ds l r c = some w') : w' ∈ l ∧ inSlice ds w' r c := by
  induction l with
  | nil => simp [lastPaint] at h
  | cons w t ih =>
    simp only [lastPaint] at h
    cases ht : lastPaint ds t r c with
    | some w₂ =>
      rw [ht] at h
      injection h with h
      subst h
      obtain ⟨hm, hs⟩ := ih ht
      exact ⟨List.mem_cons_of_mem _ hm, hs⟩
    | none =>
      rw [ht] at h
      by_cases hw : inSlice ds w r c
      · simp only [hw, if_pos] at h
        cases h
        exact ⟨List.mem_cons_self _ _, hw⟩
      · simp [hw] at h

/-- If nobody is reported as last painter, no window of the list covers the
cell. -/
theorem lastPaint_eq_none {ds : List Rect} {l : List Window} {r c : Nat}
    (h : lastPaint ds l r c = none) : ∀ w ∈ l, ¬ inSlice ds w r c := by
  induction l with
  | nil => simp
  | cons w t ih =>
    simp only [lastPaint] at h
    cases ht : lastPaint ds t r c with
    | some w₂ => rw [ht] at h; cases h
    | none =>
      rw [ht] at h
      by_cases hw : inSlice ds w r c
      · simp [hw] at h
      · intro x hx
        rcases List.mem_cons.1 hx with rfl | hx
        · exact hw
        · exact ih ht x hx

/-- A cell covered by some window of the list has a last painter. -/
theorem lastPaint_isSome {ds : List Rect} {l : List Window} {r c : Nat} {w : Window}
    (hm : w ∈ l) (hs : inSlice ds w r c) : ∃ w', lastPaint ds l r c = some w' := by
  cases h : lastPaint ds l r c with
  | some w' => exact ⟨w', rfl⟩
  | none => exact absurd hs (lastPaint_eq_none h w hm)

/-- In a list sorted by `keyLe`, the last painter of a cell is at or above
(in sort order) any window that covers the cell. -/
theorem lastPaint_keyLe {ds : List Rect} {l : List Window} {r c : Nat} {w w' : Window}
    (hp : l.Pairwise keyLe) (hm : w ∈ l) (hs : inSlice ds w r c)
    (h : lastPaint ds l r c = some w') : keyLe w w' := by
  induction l with
  | nil => simp at hm
  | cons b t ih =>
    simp only [lastPaint] at h
    cases ht : lastPaint ds t r c with
    | some w₂ =>
      rw [ht] at h
      cases h
      rcases List.mem_cons.1 hm with rfl | hmt
      · exact (List.pairwise_cons.1 hp).1 w' (lastPaint_mem ht).1
      · exact ih (List.pairwise_cons.1 hp).2 hmt ht
    | none =>
      rw [ht] at h
      rcases List.mem_cons.1 hm with rfl | hmt
      · simp only [hs, if_pos] at h
        cases h
        exact Or.inr ⟨rfl, le_refl _⟩
      · exact absurd hs (lastPaint_eq_none ht w hmt)

/-! ### The stable sort -/

/-- Membership in a stable insertion. -/
theorem mem_insertW {a x : Window} : ∀ l : List Window, x ∈ insertW a l ↔ x = a ∨ x ∈ l
  | [] => by simp [insertW]
  | b :: t => by
    by_cases h : keyLt b a
    · simp only [insertW, if_pos h, List.mem_cons, mem_insertW t]
      tauto
    · simp only [insertW, if_neg h, List.mem_cons]

/-- Stable insertion is a permutation of consing. -/
theorem insertW_perm (a : Window) : ∀ l : List Window, List.Perm (insertW a l) (a :: l)
  | [] => List.Perm.refl _
  | b :: t => by
    by_cases h : keyLt b a
    · simp only [insertW, if_pos h]
      exact ((insertW_perm a t).cons b).trans (List.Perm.swap a b t)
    · simp [insertW, if_neg h]

/-- The stable sort permutes its input. -/
theorem sortWindows_perm : ∀ ws : List Window, List.Perm (sortWindows ws) ws
  | [] => List.Perm.refl _
  | w :: t => by
    have : sortWindows (w :: t) = insertW w (sortWindows t) := rfl
    rw [this]
    exact (insertW_perm w (sortWindows t)).trans ((sortWindows_perm t).cons w)

theorem keyLe_total (a b : Window) (h : ¬ keyLt b a) : keyLe a b := by
  unfold keyLt at h
  unfold keyLe
  omega

theorem keyLe_trans {a b c : Window} (h₁ : keyLe a b) (h₂ : keyLe b c) : keyLe a c := by
  unfold keyLe at *
  omega

theorem keyLt_keyLe {a b : Window} (h : keyLt a b) : keyLe a b := by
  unfold keyLt at h
  unfold keyLe
  omega

/-- Stable insertion preserves sortedness. -/
theorem pairwise_insertW (a : Window) :
    ∀ {l : List Window}, l.Pairwise keyLe → (insertW a l).Pairwise keyLe
  | [], _ => by simp [insertW]
  | b :: t, hp => by
    obtain ⟨hb, ht⟩ := List.pairwise_cons.1 hp
    by_cases h : keyLt b a
    · simp only [insertW, if_pos h]
      refine List.pairwise_cons.2 ⟨?_, pairwise_insertW a ht⟩
      intro x hx
      rcases (mem_insertW _).1 hx with rfl | hx
      · exact keyLt_keyLe h
      · exact hb x hx
    · simp only [insertW, if_neg h]
      refine List.pairwise_cons.2 ⟨?_, hp⟩
      intro x hx
      rcases List.mem_cons.1 hx with rfl | hx
      · exact keyLe_total a x h
      · exact keyLe_trans (keyLe_total a b h) (hb x hx)

/-- The sorted window list is sorted by the `(layer, stack_order)` key. -/
theorem sortWindows_pairwise : ∀ ws : List Window, (sortWindows ws).Pairwise keyLe
  | [] => List.Pairwise.nil
  | w :: t => pairwise_insertW w (sortWindows_pairwise t)

/-! ### Slice arithmetic -/

/-- A Python-adjusted slice bound never exceeds the axis length. -/
theorem sliceIdx_le (n : Nat) (v : Int) : sliceIdx n v ≤ n := by
  unfold sliceIdx
  split_ifs <;> omega

/-- A slice of requested extent `len ≥ 0` covers at most `len` cells:
Python's bound adjustment can move or empty a slice, never grow it. -/
theorem sliceIdx_sub_le (n : Nat) (v len : Int) (h : 0 ≤ len) :
    sliceIdx n (v + len) - sliceIdx n v ≤ len.toNat := by
  unfold sliceIdx
  split_ifs <;> omega

/-- A cell value other than the background `0` is the mod-2^16-reduced id
of some window of the list that covers the cell. -/
theorem cellVal_ne_zero {ds : List Rect} {l : List Window} {r c : Nat}
    (h : cellVal ds l r c ≠ 0) :
    ∃ w ∈ l, inSlice ds w r c ∧ cellVal ds l r c = w.window_id % 65536 := by
  rw [cellVal_eq_lastPaint] at h ⊢
  cases hlp : lastPaint ds l r c with
  | none => rw [hlp] at h; simp at h
  | some w =>
    obtain ⟨hm, hs⟩ := lastPaint_mem hlp
    exact ⟨w, hm, hs, rfl⟩

/-- Two windows of a list with `Nodup` ids and the same id are equal. -/
theorem eq_of_id_eq {ws : List Window} (hnd : (ws.map (fun w => w.window_id)).Nodup)
    {a b : Window} (ha : a ∈ ws) (hb : b ∈ ws) (h : a.window_id = b.window_id) : a = b :=
  List.inj_on_of_nodup_map hnd ha hb h

/-- With distinct ids all below 2^16, the bitmap cells holding window `w`'s
id all lie inside `w`'s own written slice. -/
theorem cells_of_id_subset {ws : List Window} (ds : List Rect) {w : Window}
    (hnd : (ws.map (fun w => w.window_id)).Nodup)
    (hid : ∀ w' ∈ ws, 1 ≤ w'.window_id ∧ w'.window_id < 65536) (hm : w ∈ ws) :
    ((gridCells ds).filter (fun p => bitmapVal ws ds p.1 p.2 = w.window_id)) ⊆
      (Finset.Ico (rowLo ds w) (rowHi ds w)) ×ˢ (Finset.Ico (colLo ds w) (colHi ds w)) := by
  intro p hp
  obtain ⟨-, hv⟩ := Finset.mem_filter.1 hp
  have hne : bitmapVal ws ds p.1 p.2 ≠ 0 := by
    rw [hv]
    have := (hid w hm).1
    omega
  obtain ⟨w', hm', hs', hv'⟩ := cellVal_ne_zero hne
  have hmw' : w' ∈ ws := (sortWindows_perm ws).mem_iff.1 hm'
  have hw'lt : w'.window_id < 65536 := (hid w' hmw').2
  have hvb : bitmapVal ws ds p.1 p.2 = w'.window_id % 65536 := hv'
  have hideq : w'.window_id = w.window_id := by omega
  have : w' = w := eq_of_id_eq hnd hmw' hm hideq
  subst this
  obtain ⟨h1, h2, h3, h4⟩ := hs'
  simp only [Finset.mem_product, Finset.mem_Ico]
  exact ⟨⟨h1, h2⟩, ⟨h3, h4⟩⟩

/-- With distinct ids all below 2^16 and non-negative sizes, a window's
bitmap count is at most its nominal pixel area. -/
theorem idCount_le_area {ws : List Window} {ds : List Rect} {w : Window}
    (hnd : (ws.map (fun w => w.window_id)).Nodup)
    (hid : ∀ w' ∈ ws, 1 ≤ w'.window_id ∧ w'.window_id < 65536) (hm : w ∈ ws)
    (hw : 0 ≤ w.width) (hh : 0 ≤ w.height) :
    (idCount ws ds w.window_id : Int) ≤ w.width * w.height := by
  have hsub := cells_of_id_subset ds hnd hid hm
  have hcard := Finset.card_le_card hsub
  rw [Finset.card_product, Nat.card_Ico, Nat.card_Ico] at hcard
  have hr : rowHi ds w - rowLo ds w ≤ w.height.toNat := sliceIdx_sub_le _ _ _ hh
  have hc : colHi ds w - colLo ds w ≤ w.width.toNat := sliceIdx_sub_le _ _ _ hw
  have hmul : (rowHi ds w - rowLo ds w) * (colHi ds w - colLo ds w) ≤
      w.height.toNat * w.width.toNat := Nat.mul_le_mul hr hc
  have : idCount ws ds w.window_id ≤ w.height.toNat * w.width.toNat := le_trans hcard hmul
  have h1 : ((w.height.toNat : Int)) = w.height := Int.toNat_of_nonneg hh
  have h2 : ((w.width.toNat : Int)) = w.width := Int.toNat_of_nonneg hw
  calc (idCount ws ds w.window_id : Int) ≤ (w.height.toNat : Int) * (w.width.toNat : Int) := by
        exact_mod_cast this
    _ = w.height * w.width := by rw [h1, h2]
    _ = w.width * w.height := by ring

/-! ### `window_sizes` and the entry list -/

/-- A fold step that never matches leaves the accumulator unchanged. -/
theorem foldl_sizes_const {id : Nat} {l : List Window}
    (h : ∀ w2 ∈ l, w2.window_id ≠ id) (a : Int) :
    l.foldl (fun a w => if w.window_id = id then w.width * w.height else a) a = a := by
  induction l generalizing a with
  | nil => rfl
  | cons b t ih =>
    have hb : b.window_id ≠ id := h b (List.mem_cons_self _ _)
    simp only [List.foldl_cons, if_neg hb]
    exact ih (fun w2 hw2 => h w2 (List.mem_cons_of_mem _ hw2)) a

/-- `window_sizes[id]` is the area of the last window carrying `id`. -/
theorem windowSizes_last {ws pre rest : List Window} {w : Window}
    (hsplit : ws = pre ++ w :: rest)
    (hlast : ∀ w2 ∈ rest, w2.window_id ≠ w.window_id) :
    windowSizes ws w.window_id = w.width * w.height := by
  subst hsplit
  unfold windowSizes
  rw [List.foldl_append, List.foldl_cons, if_pos rfl]
  exact foldl_sizes_const hlast _

/-- Every produced entry is `mkEntry` of a window and the part of the list
after it. -/
theorem visEntries_mem {ws : List Window} {ds : List Rect} {e : VisEntry} :
    ∀ {l : List Window}, e ∈ visEntries ws ds l →
      ∃ w rest pre, l = pre ++ w :: rest ∧ e = mkEntry ws ds w rest
  | [], h => by simp [visEntries] at h
  | w :: t, h => by
    rcases List.mem_cons.1 h with rfl | ht
    · exact ⟨w, t, [], rfl, rfl⟩
    · obtain ⟨w', rest, pre, hsplit, he⟩ := visEntries_mem ht
      exact ⟨w', rest, w :: pre, by simp [hsplit], he⟩


/-- Closed form for the example's bitmap: window 2's slice wins, then
window 1's, else background. -/
theorem c1_cell (r c : Nat) :
    bitmapVal c1Windows c1Displays r c =
      if 100 ≤ r ∧ r < 300 ∧ 100 ≤ c ∧ c < 300 then 2
      else if r < 200 ∧ c < 200 then 1 else 0 := by
  have hs : sortWindows c1Windows = c1Windows := by decide
  have h1 : ∀ r c : Nat, inSlice c1Displays ⟨1, 0, 0, 200, 200, 0, 1⟩ r c ↔
      (r < 200 ∧ c < 200) := by
    intro r c
    have e1 : rowLo c1Displays ⟨1, 0, 0, 200, 200, 0, 1⟩ = 0 := by decide
    have e2 : rowHi c1Displays ⟨1, 0, 0, 200, 200, 0, 1⟩ = 200 := by decide
    have e3 : colLo c1Displays ⟨1, 0, 0, 200, 200, 0, 1⟩ = 0 := by decide
    have e4 : colHi c1Displays ⟨1, 0, 0, 200, 200, 0, 1⟩ = 200 := by decide
    unfold inSlice
    rw [e1, e2, e3, e4]
    omega
  have h2 : ∀ r c : Nat, inSlice c1Displays ⟨2, 100, 100, 200, 200, 0, 2⟩ r c ↔
      (100 ≤ r ∧ r < 300 ∧ 100 ≤ c ∧ c < 300) := by
    intro r c
    have e1 : rowLo c1Displays ⟨2, 100, 100, 200, 200, 0, 2⟩ = 100 := by decide
    have e2 : rowHi c1Displays ⟨2, 100, 100, 200, 200, 0, 2⟩ = 300 := by decide
    have e3 : colLo c1Displays ⟨2, 100, 100, 200, 200, 0, 2⟩ = 100 := by decide
    have e4 : colHi c1Displays ⟨2, 100, 100, 200, 200, 0, 2⟩ = 300 := by decide
    unfold inSlice
    rw [e1, e2, e3, e4]
  unfold bitmapVal
  rw [hs]
  show cellVal c1Displays (⟨1, 0, 0, 200, 200, 0, 1⟩ ::
    [⟨2, 100, 100, 200, 200, 0, 2⟩]) r c = _
  unfold cellVal
  simp only [List.foldl_cons, List.foldl_nil, h1 r c, h2 r c]

/-- The example's count for window 1: 200×200 minus the 100×100 overlap. -/
theorem c1_count1 : idCount c1Windows c1Displays 1 = 30000 := by
  unfold idCount
  have hset : ((gridCells c1Displays).filter
        (fun p => bitmapVal c1Windows c1Displays p.1 p.2 = 1)) =
      ((Finset.Ico 0 200) ×ˢ (Finset.Ico 0 200)) \
        ((Finset.Ico 100 300) ×ˢ (Finset.Ico 100 300)) := by
    ext p
    obtain ⟨r, c⟩ := p
    have hcanH : (canvasH c1Displays).toNat = 1000 := by decide
    have hcanW : (canvasW c1Displays).toNat = 1000 := by decide
    simp only [gridCells, hcanH, hcanW, Finset.mem_filter, Finset.mem_product,
      Finset.mem_range, Finset.mem_sdiff, Finset.mem_Ico, c1_cell]
    constructor
    · rintro ⟨⟨hr, hc⟩, hv⟩
      split_ifs at hv <;> omega
    · rintro ⟨⟨⟨h0r, hr⟩, h0c, hc⟩, hnot⟩
      split_ifs <;> omega
  rw [hset]
  have hcard := Finset.card_sdiff_add_card_inter
    ((Finset.Ico 0 200) ×ˢ (Finset.Ico 0 200))
    ((Finset.Ico 100 300) ×ˢ (Finset.Ico 100 300))
  rw [Finset.product_inter_product] at hcard
  have hico : Finset.Ico 0 200 ∩ Finset.Ico 100 300 = Finset.Ico (100 : ℕ) 200 := by
    ext x
    simp only [Finset.mem_inter, Finset.mem_Ico]
    omega
  rw [hico] at hcard
  simp only [Finset.card_product, Nat.card_Ico] at hcard ⊢
  omega

/-- The example's count for window 2: its full 200×200 area. -/
theorem c1_count2 : idCount c1Windows c1Displays 2 = 40000 := by
  unfold idCount
  have hset : ((gridCells c1Displays).filter
        (fun p => bitmapVal c1Windows c1Displays p.1 p.2 = 2)) =
      (Finset.Ico 100 300) ×ˢ (Finset.Ico 100 300) := by
    ext p
    obtain ⟨r, c⟩ := p
    have hcanH : (canvasH c1Displays).toNat = 1000 := by decide
    have hcanW : (canvasW c1Displays).toNat = 1000 := by decide
    simp only [gridCells, hcanH, hcanW, Finset.mem_filter, Finset.mem_product,
      Finset.mem_range, Finset.mem_sdiff, Finset.mem_Ico, c1_cell]
    constructor
    · rintro ⟨⟨hr, hc⟩, hv⟩
      split_ifs at hv <;> omega
    · intro h
      split_ifs <;> omega
  rw [hset]
  simp [Finset.card_product, Nat.card_Ico]

/-- **C1.** On displays `[{0,0,1000,1000}]` and windows
`[{id:1,pos:(0,0),size:(200,200),layer:0,stack:1},
{id:2,pos:(100,100),size:(200,200),layer:0,stack:2}]`, the visibility
computation assigns window 1 exactly 75.0 percent (30000 of its 40000
pixels stay visible) and window 2 exactly 100.0 percent. -/
theorem c1_example_percentages :
    add_visibility_pct c1Windows c1Displays =
      .ok [⟨⟨1, 0, 0, 200, 200, 0, 1⟩, 30000, 75⟩,
           ⟨⟨2, 100, 100, 200, 200, 0, 2⟩, 40000, 100⟩] := by
  have e1 : mkEntry c1Windows c1Displays ⟨1, 0, 0, 200, 200, 0, 1⟩
      [⟨2, 100, 100, 200, 200, 0, 2⟩] = ⟨⟨1, 0, 0, 200, 200, 0, 1⟩, 30000, 75⟩ := by
    have hsz : windowSizes c1Windows 1 = 40000 := by decide
    simp only [mkEntry, c1_count1, hsz]
    norm_num
  have e2 : mkEntry c1Windows c1Displays ⟨2, 100, 100, 200, 200, 0, 2⟩ [] =
      ⟨⟨2, 100, 100, 200, 200, 0, 2⟩, 40000, 100⟩ := by
    have hsz : windowSizes c1Windows 2 = 40000 := by decide
    simp only [mkEntry, c1_count2, hsz]
    norm_num
  have hde : ¬ (c1Displays = []) := by decide
  have hneg : ¬ (canvasW c1Displays < 0 ∨ canvasH c1Displays < 0) := by decide
  have hwe : ¬ (c1Windows = []) := by decide
  unfold add_visibility_pct
  rw [if_neg hde, if_neg hneg, if_neg hwe]
  have hv : visEntries c1Windows c1Displays c1Windows =
      [mkEntry c1Windows c1Displays ⟨1, 0, 0, 200, 200, 0, 1⟩
         [⟨2, 100, 100, 200, 200, 0, 2⟩],
       mkEntry c1Windows c1Displays ⟨2, 100, 100, 200, 200, 0, 2⟩ []] := rfl
  rw [hv, e1, e2]


/-! ### Generic evaluation lemmas for entries -/

/-- When none of the checks fires, the computation succeeds with the entry
list. -/
theorem add_visibility_pct_ok {ws : List Window} {ds : List Rect}
    (h1 : ds ≠ []) (h2 : ¬ (canvasW ds < 0 ∨ canvasH ds < 0)) (h3 : ws ≠ []) :
    add_visibility_pct ws ds = .ok (visEntries ws ds ws) := by
  unfold add_visibility_pct
  rw [if_neg h1, if_neg h2, if_neg h3]

/-- Entry of a window that is the last holder of its id and has a nonzero
count and a positive recorded size. -/
theorem mkEntry_eval_pos {ws : List Window} {ds : List Rect} {w : Window}
    {rest : List Window} {cnt : Nat} {sz : Int}
    (hlast : (rest.all (fun w2 => w2.window_id ≠ w.window_id)) = true)
    (hcnt : idCount ws ds w.window_id = cnt) (hsz : windowSizes ws w.window_id = sz)
    (hc : cnt ≠ 0) (hs : 0 < sz) :
    mkEntry ws ds w rest = ⟨w, cnt, 100 * (cnt : ℚ) / (sz : ℚ)⟩ := by
  simp only [mkEntry, hcnt, hsz]
  rw [if_pos hlast, if_pos hc, if_pos hs]

/-- Entry of a window whose id never occurs in the finished bitmap. -/
theorem mkEntry_eval_zero {ws : List Window} {ds : List Rect} {w : Window}
    {rest : List Window} (hcnt : idCount ws ds w.window_id = 0) :
    mkEntry ws ds w rest = ⟨w, 0, 0⟩ := by
  simp only [mkEntry, hcnt]
  split
  · rw [if_neg (by simp)]
  · rfl

/-! ### Claim C2: off-canvas windows are not clipped but wrapped -/

/-- **C2 evaluation (code bug).** A 2×2 window at x = −3, entirely to the
left of the single 10×10 display, is *not* clipped away: its negative
canvas-local coordinates follow Python slice semantics, wrap to columns
7–8, and the window is reported 100.0 percent visible, with the bitmap
holding its id at cell (0, 7).  The spec instead demands clipping to
`[0, canvas_width) × [0, canvas_height)` and a 0.0 result. -/
theorem c2_offscreen_window_wraps :
    add_visibility_pct [⟨1, -3, 0, 2, 2, 0, 1⟩] [⟨0, 0, 10, 10⟩] =
        .ok [⟨⟨1, -3, 0, 2, 2, 0, 1⟩, 4, 100⟩] ∧
      bitmapVal [⟨1, -3, 0, 2, 2, 0, 1⟩] [⟨0, 0, 10, 10⟩] 0 7 = 1 := by
  constructor
  · rw [add_visibility_pct_ok (by decide) (by decide) (by decide)]
    have hv : visEntries [⟨1, -3, 0, 2, 2, 0, 1⟩] [⟨0, 0, 10, 10⟩]
        [⟨1, -3, 0, 2, 2, 0, 1⟩] =
        [mkEntry [⟨1, -3, 0, 2, 2, 0, 1⟩] [⟨0, 0, 10, 10⟩] ⟨1, -3, 0, 2, 2, 0, 1⟩ []] := rfl
    rw [hv, mkEntry_eval_pos
      (show (([] : List Window).all
        (fun w2 => w2.window_id ≠ (⟨1, -3, 0, 2, 2, 0, 1⟩ : Window).window_id)) = true
        from rfl)
      (show idCount [⟨1, -3, 0, 2, 2, 0, 1⟩] [⟨0, 0, 10, 10⟩] 1 = 4 by decide)
      (show windowSizes [⟨1, -3, 0, 2, 2, 0, 1⟩] 1 = 4 by decide)
      (by decide) (by decide)]
    norm_num
  · decide

/-! ### Claim C9: determinism -/

/-- **C9.** The computation is a pure function of its inputs: identical
window and display lists (including their order) give identical results. -/
theorem c9_deterministic (ws₁ ws₂ : List Window) (ds₁ ds₂ : List Rect)
    (hw : ws₁ = ws₂) (hd : ds₁ = ds₂) :
    add_visibility_pct ws₁ ds₁ = add_visibility_pct ws₂ ds₂ := by
  rw [hw, hd]

/-- Witness for C9 at a concrete input. -/
theorem c9_deterministic_witness :
    add_visibility_pct [⟨1, 0, 0, 1, 1, 0, 1⟩] [⟨0, 0, 2, 2⟩] =
      add_visibility_pct [⟨1, 0, 0, 1, 1, 0, 1⟩] [⟨0, 0, 2, 2⟩] :=
  c9_deterministic _ _ _ _ rfl rfl

/-! ### Claim C7: which inputs make the computation fail -/

/-- On a zero-area canvas every bitmap count is zero. -/
theorem idCount_of_degenerate_canvas {ws : List Window} {ds : List Rect}
    (h : canvasW ds = 0 ∨ canvasH ds = 0) (id : Nat) : idCount ws ds id = 0 := by
  unfold idCount gridCells
  rcases h with h | h <;> simp [h]

/-- **C7 (amended).** The computation fails exactly when the display list
is empty (`min()` of an empty sequence), a canvas dimension is negative
(`np.zeros` rejects it), or the window list is empty (`max()` of an empty
sequence).  A canvas of zero width or height, which the spec calls fatal,
is *not* an error: numpy builds an empty bitmap and every window comes
back with 0 visible pixels and 0.0 percent. -/
theorem c7_failure_characterisation (ws : List Window) (ds : List Rect) :
    ((∃ msg, add_visibility_pct ws ds = .error msg) ↔
      (ds = [] ∨ canvasW ds < 0 ∨ canvasH ds < 0 ∨ ws = [])) ∧
    (∀ es, add_visibility_pct ws ds = .ok es → canvasW ds = 0 ∨ canvasH ds = 0 →
      ∀ e ∈ es, e.visible_pixels = 0 ∧ e.visible_percent = 0) := by
  constructor
  · unfold add_visibility_pct
    split_ifs with h1 h2 h3
    · exact iff_of_true ⟨_, rfl⟩ (Or.inl h1)
    · exact iff_of_true ⟨_, rfl⟩ (by tauto)
    · exact iff_of_true ⟨_, rfl⟩ (by tauto)
    · refine iff_of_false ?_ ?_
      · rintro ⟨msg, hmsg⟩
        cases hmsg
      · rintro (h | h | h | h) <;> tauto
  · intro es hes hzero e he
    have hok : add_visibility_pct ws ds = .ok (visEntries ws ds ws) := by
      unfold add_visibility_pct at hes ⊢
      split_ifs at hes ⊢
      rfl
    rw [hok] at hes
    injection hes with hes
    subst hes
    obtain ⟨w, rest, pre, -, he'⟩ := visEntries_mem he
    rw [he', mkEntry_eval_zero (idCount_of_degenerate_canvas hzero _)]
    exact ⟨rfl, rfl⟩

/-- **C7 counterexample to the claim as stated.** A display list producing
a 5×0 canvas, which the claim says must raise `InvalidInput`, instead
completes normally and returns a usable result. -/
theorem c7_zero_canvas_completes :
    add_visibility_pct [⟨1, 0, 0, 2, 2, 0, 1⟩] [⟨0, 0, 5, 0⟩] =
      .ok [⟨⟨1, 0, 0, 2, 2, 0, 1⟩, 0, 0⟩] := by
  rw [add_visibility_pct_ok (by decide) (by decide) (by decide)]
  have hv : visEntries [⟨1, 0, 0, 2, 2, 0, 1⟩] [⟨0, 0, 5, 0⟩] [⟨1, 0, 0, 2, 2, 0, 1⟩] =
      [mkEntry [⟨1, 0, 0, 2, 2, 0, 1⟩] [⟨0, 0, 5, 0⟩] ⟨1, 0, 0, 2, 2, 0, 1⟩ []] := rfl
  rw [hv, mkEntry_eval_zero (show idCount [⟨1, 0, 0, 2, 2, 0, 1⟩] [⟨0, 0, 5, 0⟩] 1 = 0
    by decide)]

/-- Witness for C7 at a concrete input: empty displays are an error, and a
zero-height canvas propagates zeros to every entry. -/
theorem c7_failure_characterisation_witness :
    (∃ msg, add_visibility_pct [⟨1, 0, 0, 2, 2, 0, 1⟩] [] = .error msg) ∧
      ∀ e ∈ [(⟨⟨1, 0, 0, 2, 2, 0, 1⟩, 0, 0⟩ : VisEntry)],
        e.visible_pixels = 0 ∧ e.visible_percent = 0 :=
  ⟨(c7_failure_characterisation [⟨1, 0, 0, 2, 2, 0, 1⟩] []).1.mpr (Or.inl rfl),
   (c7_failure_characterisation [⟨1, 0, 0, 2, 2, 0, 1⟩] [⟨0, 0, 5, 0⟩]).2 _
     (by
       rw [add_visibility_pct_ok (by decide) (by decide) (by decide)]
       have hv : visEntries [⟨1, 0, 0, 2, 2, 0, 1⟩] [⟨0, 0, 5, 0⟩]
           [⟨1, 0, 0, 2, 2, 0, 1⟩] =
           [mkEntry [⟨1, 0, 0, 2, 2, 0, 1⟩] [⟨0, 0, 5, 0⟩] ⟨1, 0, 0, 2, 2, 0, 1⟩ []] := rfl
       rw [hv, mkEntry_eval_zero
         (show idCount [⟨1, 0, 0, 2, 2, 0, 1⟩] [⟨0, 0, 5, 0⟩] 1 = 0 by decide)])
     (Or.inr (by decide))⟩

/-! ### Claim C6: degenerate windows -/

/-- The entry always records the window it was built from. -/
theorem mkEntry_window (ws : List Window) (ds : List Rect) (w : Window)
    (rest : List Window) : (mkEntry ws ds w rest).window = w := by
  simp only [mkEntry]
  split_ifs <;> rfl

/-- **C6.** A window with zero width or zero height always comes back with
`visible_percent == 0.0`: the `window_sizes > 0` mask keeps the zero-area
denominator out of the division, so no division by zero happens and no
error is raised for that window. -/
theorem c6_degenerate_window_zero (ws : List Window) (ds : List Rect)
    (es : List VisEntry) (hes : add_visibility_pct ws ds = .ok es)
    (e : VisEntry) (he : e ∈ es)
    (hdeg : e.window.width = 0 ∨ e.window.height = 0) :
    e.visible_percent = 0 := by
  have hok : add_visibility_pct ws ds = .ok (visEntries ws ds ws) := by
    unfold add_visibility_pct at hes ⊢
    split_ifs at hes ⊢
    rfl
  rw [hok] at hes
  injection hes with hes
  subst hes
  obtain ⟨w, rest, pre, hsplit, he'⟩ := visEntries_mem he
  have hw : e.window = w := by rw [he']; exact mkEntry_window ws ds w rest
  rw [he']
  by_cases hall : (rest.all (fun w2 => w2.window_id ≠ w.window_id)) = true
  · have hrest : ∀ w2 ∈ rest, w2.window_id ≠ w.window_id := by
      intro w2 hw2
      have := List.all_eq_true.1 hall w2 hw2
      simpa using this
    have hsz : windowSizes ws w.window_id = w.width * w.height :=
      windowSizes_last hsplit hrest
    have hzero : w.width * w.height = 0 := by
      rw [hw] at hdeg
      rcases hdeg with h | h <;> rw [h] <;> ring
    simp only [mkEntry, hall, if_true, hsz, hzero]
    split_ifs <;> simp
  · simp only [mkEntry]
    rw [if_neg hall]

/-- Witness for C6 at a concrete input: a 0×5 window on a 3×3 display. -/
theorem c6_degenerate_window_zero_witness :
    (⟨⟨1, 0, 0, 0, 5, 0, 1⟩, 0, 0⟩ : VisEntry).visible_percent = 0 :=
  c6_degenerate_window_zero [⟨1, 0, 0, 0, 5, 0, 1⟩] [⟨0, 0, 3, 3⟩]
    [⟨⟨1, 0, 0, 0, 5, 0, 1⟩, 0, 0⟩]
    (by
      rw [add_visibility_pct_ok (by decide) (by decide) (by decide)]
      have hv : visEntries [⟨1, 0, 0, 0, 5, 0, 1⟩] [⟨0, 0, 3, 3⟩]
          [⟨1, 0, 0, 0, 5, 0, 1⟩] =
          [mkEntry [⟨1, 0, 0, 0, 5, 0, 1⟩] [⟨0, 0, 3, 3⟩] ⟨1, 0, 0, 0, 5, 0, 1⟩ []] := rfl
      rw [hv, mkEntry_eval_zero (show idCount [⟨1, 0, 0, 0, 5, 0, 1⟩] [⟨0, 0, 3, 3⟩] 1 = 0
        by decide)])
    _ (List.mem_singleton.2 rfl) (Or.inl rfl)

/-! ### Claim C4: layer dominance -/

/-- **C4.** If windows `wa` and `wb` overlap at a bitmap cell and `wb`'s
layer is strictly higher, then the finished bitmap at that cell holds the
id of `wb` itself or of some window sorted at or above `wb` — in every
case a window whose layer is at least `wb`'s and strictly above `wa`'s,
regardless of the two windows' relative `stack_order` values.  (Ids are
assumed to fit the `uint16` cells; claim C10 treats the wrap-around.) -/
theorem c4_layer_dominance (ws : List Window) (ds : List Rect) (wa wb : Window)
    (_ha : wa ∈ ws) (hb : wb ∈ ws) (hlayer : wa.layer < wb.layer)
    (r c : Nat) (_hsa : inSlice ds wa r c) (hsb : inSlice ds wb r c)
    (hid : ∀ w ∈ ws, w.window_id < 65536) :
    ∃ w', w' ∈ ws ∧ inSlice ds w' r c ∧ keyLe wb w' ∧ wb.layer ≤ w'.layer ∧
      wa.layer < w'.layer ∧ bitmapVal ws ds r c = w'.window_id := by
  have hbs : wb ∈ sortWindows ws := (sortWindows_perm ws).mem_iff.2 hb
  obtain ⟨w', hlp⟩ := lastPaint_isSome hbs hsb
  obtain ⟨hm', hs'⟩ := lastPaint_mem hlp
  have hle : keyLe wb w' := lastPaint_keyLe (sortWindows_pairwise ws) hbs hsb hlp
  have hm'' : w' ∈ ws := (sortWindows_perm ws).mem_iff.1 hm'
  have hval : bitmapVal ws ds r c = w'.window_id := by
    unfold bitmapVal
    rw [cellVal_eq_lastPaint, hlp]
    exact Nat.mod_eq_of_lt (hid w' hm'')
  have hlay : wb.layer ≤ w'.layer := by
    unfold keyLe at hle
    omega
  exact ⟨w', hm'', hs', hle, hlay, by omega, hval⟩

/-- Witness for C4 at a concrete input: a layer-1 window with low stack
order over a layer-0 window with high stack order, overlapping at the
origin cell. -/
theorem c4_layer_dominance_witness :
    ∃ w', w' ∈ [(⟨1, 0, 0, 2, 2, 0, 5⟩ : Window), ⟨2, 0, 0, 2, 2, 1, 1⟩] ∧
      inSlice [⟨0, 0, 4, 4⟩] w' 0 0 ∧ keyLe ⟨2, 0, 0, 2, 2, 1, 1⟩ w' ∧
      (⟨2, 0, 0, 2, 2, 1, 1⟩ : Window).layer ≤ w'.layer ∧
      (⟨1, 0, 0, 2, 2, 0, 5⟩ : Window).layer < w'.layer ∧
      bitmapVal [⟨1, 0, 0, 2, 2, 0, 5⟩, ⟨2, 0, 0, 2, 2, 1, 1⟩] [⟨0, 0, 4, 4⟩] 0 0 =
        w'.window_id :=
  c4_layer_dominance [⟨1, 0, 0, 2, 2, 0, 5⟩, ⟨2, 0, 0, 2, 2, 1, 1⟩] [⟨0, 0, 4, 4⟩]
    ⟨1, 0, 0, 2, 2, 0, 5⟩ ⟨2, 0, 0, 2, 2, 1, 1⟩ (by decide) (by decide) (by decide)
    0 0 (by decide) (by decide) (by decide)

/-! ### Claim C10: uint16 id storage -/

/-- **C10.** The bitmap's `uint16` cells store the painting window's id
reduced modulo 2^16: (1) every cell holds its last painter's id mod 65536;
(2) when every id is at most 65535 each painted cell holds the exact id of
the last window that painted it; (3) at a concrete input whose second
window has id 65538 = 2 mod 2^16, that window's 10 pixels are
mis-attributed to the window with id 2, which reports 20 visible pixels —
200 percent of its own 10-pixel area — while window 65538 reports 0. -/
theorem c10_uint16_storage :
    (∀ (ds : List Rect) (sws : List Window) (r c : Nat),
       cellVal ds sws r c = (lastPaint ds sws r c).elim 0 (fun w => w.window_id % 65536)) ∧
    (∀ (ws : List Window) (ds : List Rect) (r c : Nat) (w' : Window),
       (∀ w ∈ ws, w.window_id < 65536) → lastPaint ds (sortWindows ws) r c = some w' →
       bitmapVal ws ds r c = w'.window_id) ∧
    add_visibility_pct [⟨2, 0, 0, 10, 1, 0, 1⟩, ⟨65538, 10, 0, 10, 1, 0, 2⟩]
        [⟨0, 0, 21, 1⟩] =
      .ok [⟨⟨2, 0, 0, 10, 1, 0, 1⟩, 20, 200⟩, ⟨⟨65538, 10, 0, 10, 1, 0, 2⟩, 0, 0⟩] := by
  refine ⟨fun ds sws r c => cellVal_eq_lastPaint ds sws r c, ?_, ?_⟩
  · intro ws ds r c w' hid hlp
    have hm : w' ∈ ws := (sortWindows_perm ws).mem_iff.1 (lastPaint_mem hlp).1
    unfold bitmapVal
    rw [cellVal_eq_lastPaint, hlp]
    exact Nat.mod_eq_of_lt (hid w' hm)
  · rw [add_visibility_pct_ok (by decide) (by decide) (by decide)]
    have hv : visEntries [⟨2, 0, 0, 10, 1, 0, 1⟩, ⟨65538, 10, 0, 10, 1, 0, 2⟩]
        [⟨0, 0, 21, 1⟩] [⟨2, 0, 0, 10, 1, 0, 1⟩, ⟨65538, 10, 0, 10, 1, 0, 2⟩] =
        [mkEntry [⟨2, 0, 0, 10, 1, 0, 1⟩, ⟨65538, 10, 0, 10, 1, 0, 2⟩] [⟨0, 0, 21, 1⟩]
           ⟨2, 0, 0, 10, 1, 0, 1⟩ [⟨65538, 10, 0, 10, 1, 0, 2⟩],
         mkEntry [⟨2, 0, 0, 10, 1, 0, 1⟩, ⟨65538, 10, 0, 10, 1, 0, 2⟩] [⟨0, 0, 21, 1⟩]
           ⟨65538, 10, 0, 10, 1, 0, 2⟩ []] := rfl
    rw [hv,
      mkEntry_eval_pos
        (show (([⟨65538, 10, 0, 10, 1, 0, 2⟩] : List Window).all
          (fun w2 => w2.window_id ≠ (⟨2, 0, 0, 10, 1, 0, 1⟩ : Window).window_id)) = true
          from rfl)
        (show idCount [⟨2, 0, 0, 10, 1, 0, 1⟩, ⟨65538, 10, 0, 10, 1, 0, 2⟩]
          [⟨0, 0, 21, 1⟩] 2 = 20 by decide)
        (show windowSizes [⟨2, 0, 0, 10, 1, 0, 1⟩, ⟨65538, 10, 0, 10, 1, 0, 2⟩] 2 = 10
          by decide)
        (by decide) (by decide),
      mkEntry_eval_zero
        (show idCount [⟨2, 0, 0, 10, 1, 0, 1⟩, ⟨65538, 10, 0, 10, 1, 0, 2⟩]
          [⟨0, 0, 21, 1⟩] 65538 = 0 by decide)]
    norm_num

/-- Witness for C10 at a concrete input: a single window with id 7 < 2^16
is stored exactly. -/
theorem c10_uint16_storage_witness :
    bitmapVal [⟨7, 0, 0, 1, 1, 0, 1⟩] [⟨0, 0, 3, 1⟩] 0 0 = 7 :=
  c10_uint16_storage.2.1 [⟨7, 0, 0, 1, 1, 0, 1⟩] [⟨0, 0, 3, 1⟩] 0 0 ⟨7, 0, 0, 1, 1, 0, 1⟩
    (by decide) (by decide)

/-! ### Claim C3: range of the returned percentages -/

/-- **C3 counterexample to the claim as stated.** Two windows with the
distinct positive ids 1 and 65537 collide in the `uint16` bitmap
(65537 mod 2^16 = 1): the histogram credits both painted regions to id 1,
and the window with id 1 is reported 200 percent visible — outside
[0, 100]. -/
theorem c3_counterexample :
    add_visibility_pct [⟨1, 0, 0, 10, 1, 0, 1⟩, ⟨65537, 20, 0, 10, 1, 0, 2⟩]
        [⟨0, 0, 31, 1⟩] =
      .ok [⟨⟨1, 0, 0, 10, 1, 0, 1⟩, 20, 200⟩, ⟨⟨65537, 20, 0, 10, 1, 0, 2⟩, 0, 0⟩] ∧
    ¬ ((200 : ℚ) ≤ 100) := by
  constructor
  · rw [add_visibility_pct_ok (by decide) (by decide) (by decide)]
    have hv : visEntries [⟨1, 0, 0, 10, 1, 0, 1⟩, ⟨65537, 20, 0, 10, 1, 0, 2⟩]
        [⟨0, 0, 31, 1⟩] [⟨1, 0, 0, 10, 1, 0, 1⟩, ⟨65537, 20, 0, 10, 1, 0, 2⟩] =
        [mkEntry [⟨1, 0, 0, 10, 1, 0, 1⟩, ⟨65537, 20, 0, 10, 1, 0, 2⟩] [⟨0, 0, 31, 1⟩]
           ⟨1, 0, 0, 10, 1, 0, 1⟩ [⟨65537, 20, 0, 10, 1, 0, 2⟩],
         mkEntry [⟨1, 0, 0, 10, 1, 0, 1⟩, ⟨65537, 20, 0, 10, 1, 0, 2⟩] [⟨0, 0, 31, 1⟩]
           ⟨65537, 20, 0, 10, 1, 0, 2⟩ []] := rfl
    rw [hv,
      mkEntry_eval_pos
        (show (([⟨65537, 20, 0, 10, 1, 0, 2⟩] : List Window).all
          (fun w2 => w2.window_id ≠ (⟨1, 0, 0, 10, 1, 0, 1⟩ : Window).window_id)) = true
          from rfl)
        (show idCount [⟨1, 0, 0, 10, 1, 0, 1⟩, ⟨65537, 20, 0, 10, 1, 0, 2⟩]
          [⟨0, 0, 31, 1⟩] 1 = 20 by decide)
        (show windowSizes [⟨1, 0, 0, 10, 1, 0, 1⟩, ⟨65537, 20, 0, 10, 1, 0, 2⟩] 1 = 10
          by decide)
        (by decide) (by decide),
      mkEntry_eval_zero
        (show idCount [⟨1, 0, 0, 10, 1, 0, 1⟩, ⟨65537, 20, 0, 10, 1, 0, 2⟩]
          [⟨0, 0, 31, 1⟩] 65537 = 0 by decide)]
    norm_num
  · norm_num

/-- **C3 (amended).** For a non-empty display list giving a canvas of
positive size, a non-empty window list whose ids are distinct, positive
and below 2^16 (so that distinct ids stay distinct in the `uint16`
bitmap), and non-negative window sizes, the computation succeeds and every
reported `visible_percent` lies in [0, 100]. -/
theorem c3_percentages_in_range (ws : List Window) (ds : List Rect)
    (hds : ds ≠ []) (hW : 0 < canvasW ds) (hH : 0 < canvasH ds) (hws : ws ≠ [])
    (hnd : (ws.map (fun w => w.window_id)).Nodup)
    (hid : ∀ w ∈ ws, 1 ≤ w.window_id ∧ w.window_id < 65536)
    (hszs : ∀ w ∈ ws, 0 ≤ w.width ∧ 0 ≤ w.height) :
    ∃ es, add_visibility_pct ws ds = .ok es ∧
      ∀ e ∈ es, 0 ≤ e.visible_percent ∧ e.visible_percent ≤ 100 := by
  refine ⟨visEntries ws ds ws, add_visibility_pct_ok hds (by omega) hws, ?_⟩
  intro e he
  obtain ⟨w, rest, pre, hsplit, he'⟩ := visEntries_mem he
  have hmw : w ∈ ws := by
    rw [hsplit]
    exact List.mem_append_right _ (List.mem_cons_self _ _)
  rw [he']
  simp only [mkEntry]
  split_ifs with hall hc hs
  · have hrest : ∀ w2 ∈ rest, w2.window_id ≠ w.window_id := by
      intro w2 hw2
      simpa using List.all_eq_true.1 hall w2 hw2
    have hszeq : windowSizes ws w.window_id = w.width * w.height :=
      windowSizes_last hsplit hrest
    have hcnt : (idCount ws ds w.window_id : Int) ≤ windowSizes ws w.window_id := by
      rw [hszeq]
      exact idCount_le_area hnd hid hmw (hszs w hmw).1 (hszs w hmw).2
    have hq : (0 : ℚ) < ((windowSizes ws w.window_id : Int) : ℚ) := by
      exact_mod_cast hs
    have hle : ((idCount ws ds w.window_id : Nat) : ℚ) ≤
        ((windowSizes ws w.window_id : Int) : ℚ) := by
      exact_mod_cast hcnt
    constructor
    · dsimp only
      positivity
    · dsimp only
      rw [div_le_iff₀ hq]
      nlinarith
  · exact ⟨le_refl 0, by norm_num⟩
  · exact ⟨le_refl 0, by norm_num⟩
  · exact ⟨le_refl 0, by norm_num⟩

/-- Witness for C3 (amended) at a concrete input: two disjoint unit
windows on a 4×4 display. -/
theorem c3_percentages_in_range_witness :
    ∃ es, add_visibility_pct [⟨1, 0, 0, 1, 1, 0, 1⟩, ⟨2, 2, 2, 1, 1, 0, 2⟩]
        [⟨0, 0, 4, 4⟩] = .ok es ∧
      ∀ e ∈ es, 0 ≤ e.visible_percent ∧ e.visible_percent ≤ 100 :=
  c3_percentages_in_range [⟨1, 0, 0, 1, 1, 0, 1⟩, ⟨2, 2, 2, 1, 1, 0, 2⟩] [⟨0, 0, 4, 4⟩]
    (by decide) (by decide) (by decide) (by decide) (by decide) (by decide) (by decide)

/-! ### Claim C5: pixel conservation -/

/-- When the part of the list after `w` has no window with `w`'s id, the
entry's recorded pixel count is exactly the histogram count of its id. -/
theorem mkEntry_pixels {ws : List Window} {ds : List Rect} {w : Window}
    {rest : List Window}
    (hall : (rest.all (fun w2 => w2.window_id ≠ w.window_id)) = true) :
    (mkEntry ws ds w rest).visible_pixels = idCount ws ds w.window_id := by
  simp only [mkEntry, hall, if_true]
  split_ifs with hc hs
  · rfl
  · rfl
  · have hzero : idCount ws ds w.window_id = 0 := by omega
    rw [hzero]

/-- With `Nodup` ids the pixel counts of the produced entries are the
histogram counts of the ids, entry by entry. -/
theorem visEntries_pixels_sum {ws : List Window} {ds : List Rect} :
    ∀ {l : List Window}, (l.map (fun w => w.window_id)).Nodup →
      ((visEntries ws ds l).map (fun e => e.visible_pixels)).sum =
        (l.map (fun w => idCount ws ds w.window_id)).sum
  | [], _ => rfl
  | w :: rest, hnd => by
    have h' : (∀ x ∈ rest, ¬ x.window_id = w.window_id) ∧
        (rest.map (fun w => w.window_id)).Nodup := by simpa using hnd
    have hall : (rest.all (fun w2 => w2.window_id ≠ w.window_id)) = true := by
      rw [List.all_eq_true]
      intro w2 hw2
      simpa using h'.1 w2 hw2
    simp only [visEntries, List.map_cons, List.sum_cons, mkEntry_pixels hall,
      visEntries_pixels_sum h'.2]

/-- With distinct ids in [1, 2^16), the histogram counts of the windows'
ids partition the non-background cells of the finished bitmap. -/
theorem sum_idCount_eq_nonbackground (ws : List Window) (ds : List Rect)
    (hnd : (ws.map (fun w => w.window_id)).Nodup)
    (hid : ∀ w ∈ ws, 1 ≤ w.window_id ∧ w.window_id < 65536) :
    ((ws.map (fun w => idCount ws ds w.window_id)).sum) =
      ((gridCells ds).filter (fun p => bitmapVal ws ds p.1 p.2 ≠ 0)).card := by
  have hmem : ∀ p ∈ (gridCells ds).filter (fun p => bitmapVal ws ds p.1 p.2 ≠ 0),
      bitmapVal ws ds p.1 p.2 ∈ (ws.map (fun w => w.window_id)).toFinset := by
    intro p hp
    have hne : bitmapVal ws ds p.1 p.2 ≠ 0 := (Finset.mem_filter.1 hp).2
    obtain ⟨w', hm', -, hv'⟩ := cellVal_ne_zero hne
    have hmw' : w' ∈ ws := (sortWindows_perm ws).mem_iff.1 hm'
    have : bitmapVal ws ds p.1 p.2 = w'.window_id := by
      have hlt := (hid w' hmw').2
      have hb : bitmapVal ws ds p.1 p.2 = w'.window_id % 65536 := hv'
      omega
    rw [this, List.mem_toFinset]
    exact List.mem_map.2 ⟨w', hmw', rfl⟩
  have hfib := Finset.card_eq_sum_card_fiberwise hmem
  rw [hfib]
  have hfibeq : ∀ b ∈ (ws.map (fun w => w.window_id)).toFinset,
      (((gridCells ds).filter (fun p => bitmapVal ws ds p.1 p.2 ≠ 0)).filter
        (fun p => bitmapVal ws ds p.1 p.2 = b)).card = idCount ws ds b := by
    intro b hb
    obtain ⟨w, hw, hwid⟩ := List.mem_map.1 (List.mem_toFinset.1 hb)
    have hb1 : 1 ≤ b := hwid ▸ (hid w hw).1
    unfold idCount
    congr 1
    rw [Finset.filter_filter]
    apply Finset.filter_congr
    intro p hp
    constructor
    · rintro ⟨-, h⟩
      exact h
    · intro h
      refine ⟨?_, h⟩
      rw [h]
      omega
  rw [Finset.sum_congr rfl hfibeq]
  rw [List.sum_toFinset _ hnd, List.map_map]
  rfl

/-- **C5 (amended).** With distinct window ids in [1, 65535] — the data
model's unique positive ids restricted to the `uint16` range — the sum
over all windows of their counted `visible_pixels` equals the number of
non-background cells of the finished bitmap: each cell holds exactly one
id, so no pixel is counted for more than one window. -/
theorem c5_pixel_conservation (ws : List Window) (ds : List Rect)
    (es : List VisEntry) (hes : add_visibility_pct ws ds = .ok es)
    (hnd : (ws.map (fun w => w.window_id)).Nodup)
    (hid : ∀ w ∈ ws, 1 ≤ w.window_id ∧ w.window_id < 65536) :
    (es.map (fun e => e.visible_pixels)).sum =
      ((gridCells ds).filter (fun p => bitmapVal ws ds p.1 p.2 ≠ 0)).card := by
  have hok : add_visibility_pct ws ds = .ok (visEntries ws ds ws) := by
    unfold add_visibility_pct at hes ⊢
    split_ifs at hes ⊢
    rfl
  rw [hok] at hes
  injection hes with hes
  subst hes
  rw [visEntries_pixels_sum hnd]
  exact sum_idCount_eq_nonbackground ws ds hnd hid

/-- Witness for C5 (amended) at a concrete input: two overlapping unit
windows... ids 1, 2 on a 3×3 display. -/
theorem c5_pixel_conservation_witness :
    (([⟨⟨1, 0, 0, 2, 2, 0, 1⟩, 3, 75⟩, ⟨⟨2, 1, 1, 2, 2, 0, 2⟩, 4, 100⟩] :
        List VisEntry).map (fun e => e.visible_pixels)).sum =
      ((gridCells [⟨0, 0, 3, 3⟩]).filter
        (fun p => bitmapVal [⟨1, 0, 0, 2, 2, 0, 1⟩, ⟨2, 1, 1, 2, 2, 0, 2⟩]
          [⟨0, 0, 3, 3⟩] p.1 p.2 ≠ 0)).card :=
  c5_pixel_conservation [⟨1, 0, 0, 2, 2, 0, 1⟩, ⟨2, 1, 1, 2, 2, 0, 2⟩] [⟨0, 0, 3, 3⟩]
    [⟨⟨1, 0, 0, 2, 2, 0, 1⟩, 3, 75⟩, ⟨⟨2, 1, 1, 2, 2, 0, 2⟩, 4, 100⟩]
    (by
      rw [add_visibility_pct_ok (by decide) (by decide) (by decide)]
      have hv : visEntries [⟨1, 0, 0, 2, 2, 0, 1⟩, ⟨2, 1, 1, 2, 2, 0, 2⟩] [⟨0, 0, 3, 3⟩]
          [⟨1, 0, 0, 2, 2, 0, 1⟩, ⟨2, 1, 1, 2, 2, 0, 2⟩] =
          [mkEntry [⟨1, 0, 0, 2, 2, 0, 1⟩, ⟨2, 1, 1, 2, 2, 0, 2⟩] [⟨0, 0, 3, 3⟩]
             ⟨1, 0, 0, 2, 2, 0, 1⟩ [⟨2, 1, 1, 2, 2, 0, 2⟩],
           mkEntry [⟨1, 0, 0, 2, 2, 0, 1⟩, ⟨2, 1, 1, 2, 2, 0, 2⟩] [⟨0, 0, 3, 3⟩]
             ⟨2, 1, 1, 2, 2, 0, 2⟩ []] := rfl
      rw [hv,
        mkEntry_eval_pos
          (show (([⟨2, 1, 1, 2, 2, 0, 2⟩] : List Window).all
            (fun w2 => w2.window_id ≠ (⟨1, 0, 0, 2, 2, 0, 1⟩ : Window).window_id)) = true
            from rfl)
          (show idCount [⟨1, 0, 0, 2, 2, 0, 1⟩, ⟨2, 1, 1, 2, 2, 0, 2⟩] [⟨0, 0, 3, 3⟩] 1 = 3
            by decide)
          (show windowSizes [⟨1, 0, 0, 2, 2, 0, 1⟩, ⟨2, 1, 1, 2, 2, 0, 2⟩] 1 = 4 by decide)
          (by decide) (by decide),
        mkEntry_eval_pos
          (show (([] : List Window).all
            (fun w2 => w2.window_id ≠ (⟨2, 1, 1, 2, 2, 0, 2⟩ : Window).window_id)) = true
            from rfl)
          (show idCount [⟨1, 0, 0, 2, 2, 0, 1⟩, ⟨2, 1, 1, 2, 2, 0, 2⟩] [⟨0, 0, 3, 3⟩] 2 = 4
            by decide)
          (show windowSizes [⟨1, 0, 0, 2, 2, 0, 1⟩, ⟨2, 1, 1, 2, 2, 0, 2⟩] 2 = 4 by decide)
          (by decide) (by decide)]
      norm_num)
    (by decide) (by decide)

/-- **C5 counterexample to the claim as stated.** A single window with the
unique positive id 65537 paints one cell, stored as 65537 mod 2^16 = 1:
the bitmap has one non-background cell, but the window's counted
`visible_pixels` is 0, so the sum over all windows (0) differs from the
non-background cell count (1). -/
theorem c5_counterexample :
    add_visibility_pct [⟨65537, 0, 0, 1, 1, 0, 1⟩] [⟨0, 0, 2, 2⟩] =
        .ok [⟨⟨65537, 0, 0, 1, 1, 0, 1⟩, 0, 0⟩] ∧
      ((gridCells [⟨0, 0, 2, 2⟩]).filter
        (fun p => bitmapVal [⟨65537, 0, 0, 1, 1, 0, 1⟩] [⟨0, 0, 2, 2⟩] p.1 p.2 ≠ 0)).card
        = 1 ∧
      (([⟨⟨65537, 0, 0, 1, 1, 0, 1⟩, 0, 0⟩] : List VisEntry).map
        (fun e => e.visible_pixels)).sum ≠ 1 := by
  refine ⟨?_, by decide, by decide⟩
  rw [add_visibility_pct_ok (by decide) (by decide) (by decide)]
  have hv : visEntries [⟨65537, 0, 0, 1, 1, 0, 1⟩] [⟨0, 0, 2, 2⟩]
      [⟨65537, 0, 0, 1, 1, 0, 1⟩] =
      [mkEntry [⟨65537, 0, 0, 1, 1, 0, 1⟩] [⟨0, 0, 2, 2⟩] ⟨65537, 0, 0, 1, 1, 0, 1⟩ []] :=
    rfl
  rw [hv, mkEntry_eval_zero
    (show idCount [⟨65537, 0, 0, 1, 1, 0, 1⟩] [⟨0, 0, 2, 2⟩] 65537 = 0 by decide)]

/-! ### Claim C8: nominal-area denominator -/

/-- **C8.** With distinct window ids (the data model's uniqueness), every
window with positive nominal area `width × height` is reported with
`visible_percent = 100 × (its histogram pixel count) / (width × height)` —
the denominator is the full declared size, never the clipped on-canvas
area, so a window partially or fully off-canvas gets a proportionally
lower percentage. -/
theorem c8_nominal_area_denominator (ws : List Window) (ds : List Rect)
    (es : List VisEntry) (hes : add_visibility_pct ws ds = .ok es)
    (hnd : (ws.map (fun w => w.window_id)).Nodup)
    (e : VisEntry) (he : e ∈ es)
    (hpos : 0 < e.window.width * e.window.height) :
    e.visible_pixels = idCount ws ds e.window.window_id ∧
      e.visible_percent = 100 * (e.visible_pixels : ℚ) /
        ((e.window.width * e.window.height : Int) : ℚ) := by
  have hok : add_visibility_pct ws ds = .ok (visEntries ws ds ws) := by
    unfold add_visibility_pct at hes ⊢
    split_ifs at hes ⊢
    rfl
  rw [hok] at hes
  injection hes with hes
  subst hes
  obtain ⟨w, rest, pre, hsplit, he'⟩ := visEntries_mem he
  have hwin : e.window = w := by rw [he']; exact mkEntry_window ws ds w rest
  have hall : (rest.all (fun w2 => w2.window_id ≠ w.window_id)) = true := by
    rw [List.all_eq_true]
    intro w2 hw2
    have hw2ws : w2.window_id ∈ (rest.map (fun w => w.window_id)) :=
      List.mem_map.2 ⟨w2, hw2, rfl⟩
    have hnd' : ((pre ++ w :: rest).map (fun w => w.window_id)).Nodup := hsplit ▸ hnd
    rw [List.map_append, List.map_cons] at hnd'
    have := (List.nodup_append.1 hnd').2.1
    have hne : w.window_id ∉ rest.map (fun w => w.window_id) := by
      simpa using (List.nodup_cons.1 this).1
    simp only [decide_eq_true_eq]
    intro hcon
    exact hne (hcon ▸ hw2ws)
  have hrest : ∀ w2 ∈ rest, w2.window_id ≠ w.window_id := by
    intro w2 hw2
    simpa using List.all_eq_true.1 hall w2 hw2
  have hszeq : windowSizes ws w.window_id = w.width * w.height :=
    windowSizes_last hsplit hrest
  have hpos' : 0 < windowSizes ws w.window_id := by
    rw [hszeq, ← hwin]
    exact hpos
  rw [he', mkEntry_window ws ds w rest]
  by_cases hc : idCount ws ds w.window_id ≠ 0
  · rw [mkEntry_eval_pos hall rfl rfl hc hpos', hszeq]
    exact ⟨rfl, rfl⟩
  · have hc0 : idCount ws ds w.window_id = 0 := by omega
    rw [mkEntry_eval_zero hc0, hc0]
    norm_num

/-- Witness for C8 at a concrete input: one 1×1 window filling a 1×1
display. -/
theorem c8_nominal_area_denominator_witness :
    (⟨⟨1, 0, 0, 1, 1, 0, 1⟩, 1, 100⟩ : VisEntry).visible_pixels =
        idCount [⟨1, 0, 0, 1, 1, 0, 1⟩] [⟨0, 0, 1, 1⟩]
          (⟨⟨1, 0, 0, 1, 1, 0, 1⟩, 1, 100⟩ : VisEntry).window.window_id ∧
      (⟨⟨1, 0, 0, 1, 1, 0, 1⟩, 1, 100⟩ : VisEntry).visible_percent =
        100 * ((⟨⟨1, 0, 0, 1, 1, 0, 1⟩, 1, 100⟩ : VisEntry).visible_pixels : ℚ) /
          (((⟨⟨1, 0, 0, 1, 1, 0, 1⟩, 1, 100⟩ : VisEntry).window.width *
            (⟨⟨1, 0, 0, 1, 1, 0, 1⟩, 1, 100⟩ : VisEntry).window.height : Int) : ℚ) :=
  c8_nominal_area_denominator [⟨1, 0, 0, 1, 1, 0, 1⟩] [⟨0, 0, 1, 1⟩]
    [⟨⟨1, 0, 0, 1, 1, 0, 1⟩, 1, 100⟩]
    (by
      rw [add_visibility_pct_ok (by decide) (by decide) (by decide)]
      have hv : visEntries [⟨1, 0, 0, 1, 1, 0, 1⟩] [⟨0, 0, 1, 1⟩] [⟨1, 0, 0, 1, 1, 0, 1⟩] =
          [mkEntry [⟨1, 0, 0, 1, 1, 0, 1⟩] [⟨0, 0, 1, 1⟩] ⟨1, 0, 0, 1, 1, 0, 1⟩ []] := rfl
      rw [hv, mkEntry_eval_pos
        (show (([] : List Window).all
          (fun w2 => w2.window_id ≠ (⟨1, 0, 0, 1, 1, 0, 1⟩ : Window).window_id)) = true
          from rfl)
        (show idCount [⟨1, 0, 0, 1, 1, 0, 1⟩] [⟨0, 0, 1, 1⟩] 1 = 1 by decide)
        (show windowSizes [⟨1, 0, 0, 1, 1, 0, 1⟩] 1 = 1 by decide)
        (by decide) (by decide)]
      norm_num)
    (by decide) _ (List.mem_singleton.2 rfl) (by decide)
